import Mathlib

/-
  Verification of the gemulation/chip8 CHIP-8 interpreter.

  Shallow embedding of the interpreter core: the CPU/RAM/display/keypad
  state, the per-opcode `Execute` functions from inst.go, the decoder and
  fetch logic from chip8/cpu.go (`ReadInstruction`), the run-loop body from
  emulator.go (`Run`), and `RAM.LoadRom` from ram.go.

  Machine integers are modelled as `Nat` with explicit wrapping:
  8-bit registers wrap `% 256`, the 16-bit `pc`/`i`/stack slots wrap
  `% 65536`, the byte-typed stack pointer wraps `% 256`.  Go's
  bounds-checked array indexing is modelled with `Except Machine Machine`:
  `.error s` stands for a runtime index-out-of-range panic, carrying the
  state as mutated up to the point of the panic (Go mutates in place).
-/

namespace Chip8

/-- Constants from the source (`ProgramLocation`, `RamSize`, ...). -/
def ProgramLocation : Nat := 0x200

def RamSize : Nat := 4 * 1024

def RegSize : Nat := 16

def StackSize : Nat := 16

def KeyboardSize : Nat := 16

def InstructionSize : Nat := 2

def DisplayWidth : Nat := 64

def DisplayHeight : Nat := 32

/-- Modelled from the spec: `SpriteSize` is referenced by inst.go
(`LoadSprite`) but its declaration is not under src/; the spec fixes font
glyphs at 5 bytes each (16 glyphs x 5 bytes). -/
def SpriteSize : Nat := 5

/-- Pointwise function update, modelling in-place array element assignment. -/
def upd (f : Nat → Nat) (a v : Nat) : Nat → Nat :=
  fun b => if b = a then v else f b

/-- Wrapping 8-bit subtraction: Go `uint8` subtraction `a - b`. -/
def sub8 (a b : Nat) : Nat :=
  (a % 256 + (256 - b % 256)) % 256

/-- CPU state, from chip8/cpu.go: 16-slot `uint16` stack, 16 `uint8`
registers, byte stack pointer, 16-bit `pc` and `i`, two timers. -/
structure CPU where
  stack : Nat → Nat
  v : Nat → Nat
  sp : Nat
  pc : Nat
  i : Nat
  dt : Nat
  st : Nat

/-- Whole-machine state, from emulator.go: CPU, 4096-byte RAM, the 64x32
display memory and the 16-key keypad. -/
structure Machine where
  cpu : CPU
  ram : Nat → Nat
  display : Nat → Nat
  keys : Nat → Bool

/-- Write a `uint8` register cell (wraps mod 256, as Go's `uint8` does). -/
def setV (s : Machine) (x val : Nat) : Machine :=
  { s with cpu := { s.cpu with v := upd s.cpu.v x (val % 256) } }

/-- Bounds-checked RAM read (`ram.data[a]`): panics when `a >= 4096`. -/
def ramRead (s : Machine) (a : Nat) : Option Nat :=
  if a < RamSize then some (s.ram a) else none

/-- Bounds-checked RAM write (`ram.data[a] = byte(v)`). -/
def ramWrite (s : Machine) (a v : Nat) : Except Machine Machine :=
  if a < RamSize then .ok { s with ram := upd s.ram a (v % 256) } else .error s

/-- 00E0 - CLS: clear the display memory (display.go `Clear`). -/
def Clear.Execute (s : Machine) : Machine :=
  { s with display := fun _ => 0 }

/-- 00EE - RET: `pc = stack[sp]; sp--`.  The stack read is bounds-checked
against the 16-entry array; `sp--` wraps the byte stack pointer. -/
def Return.Execute (s : Machine) : Except Machine Machine :=
  if s.cpu.sp < StackSize then
    .ok { s with cpu := { s.cpu with
            pc := s.cpu.stack s.cpu.sp,
            sp := (s.cpu.sp + 255) % 256 } }
  else .error s

/-- 1nnn - JP addr. -/
def Jump.Execute (val : Nat) (s : Machine) : Machine :=
  { s with cpu := { s.cpu with pc := val % 4096 } }

/-- 2nnn - CALL addr: `sp++; stack[sp] = pc; pc = nnn`.  The increment
happens before the bounds-checked store, so a panicking push leaves `sp`
already incremented. -/
def Call.Execute (val : Nat) (s : Machine) : Except Machine Machine :=
  let nnn := val % 4096
  let sp1 := (s.cpu.sp + 1) % 256
  let s1 : Machine := { s with cpu := { s.cpu with sp := sp1 } }
  if sp1 < StackSize then
    .ok { s1 with cpu := { s1.cpu with
            stack := upd s1.cpu.stack sp1 (s.cpu.pc % 65536),
            pc := nnn } }
  else .error s1

/-- 3xkk - SE Vx, byte. -/
def SkipX.Execute (val : Nat) (s : Machine) : Machine :=
  let x := (val / 256) % 16
  let kk := val % 256
  if s.cpu.v x = kk then
    { s with cpu := { s.cpu with pc := (s.cpu.pc + InstructionSize) % 65536 } }
  else s

/-- 4xkk - SNE Vx, byte. -/
def SkipNotX.Execute (val : Nat) (s : Machine) : Machine :=
  let x := (val / 256) % 16
  let kk := val % 256
  if s.cpu.v x ≠ kk then
    { s with cpu := { s.cpu with pc := (s.cpu.pc + InstructionSize) % 65536 } }
  else s

/-- 5xy0 - SE Vx, Vy. -/
def SkipXY.Execute (val : Nat) (s : Machine) : Machine :=
  let x := (val / 256) % 16
  let y := (val / 16) % 16
  if s.cpu.v x = s.cpu.v y then
    { s with cpu := { s.cpu with pc := (s.cpu.pc + InstructionSize) % 65536 } }
  else s

/-- 6xkk - LD Vx, byte. -/
def LoadX.Execute (val : Nat) (s : Machine) : Machine :=
  setV s ((val / 256) % 16) (val % 256)

/-- 7xkk - ADD Vx, byte (wrapping `uint8` add). -/
def AddX.Execute (val : Nat) (s : Machine) : Machine :=
  let x := (val / 256) % 16
  setV s x (s.cpu.v x + val % 256)

/-- 8xy0 - LD Vx, Vy. -/
def LoadXY.Execute (val : Nat) (s : Machine) : Machine :=
  setV s ((val / 256) % 16) (s.cpu.v ((val / 16) % 16))

/-- 8xy1 - OR Vx, Vy. -/
def OR.Execute (val : Nat) (s : Machine) : Machine :=
  let x := (val / 256) % 16
  setV s x (Nat.lor (s.cpu.v x) (s.cpu.v ((val / 16) % 16)))

/-- 8xy2 - AND Vx, Vy. -/
def AND.Execute (val : Nat) (s : Machine) : Machine :=
  let x := (val / 256) % 16
  setV s x (Nat.land (s.cpu.v x) (s.cpu.v ((val / 16) % 16)))

/-- 8xy3 - XOR Vx, Vy. -/
def XOR.Execute (val : Nat) (s : Machine) : Machine :=
  let x := (val / 256) % 16
  setV s x (Nat.xor (s.cpu.v x) (s.cpu.v ((val / 16) % 16)))

/-- 8xy4 - ADD Vx, Vy: `xy := v[x] + v[y]` (wrapping `uint8` sum), VF reset,
set on `xy > 0xFF`, then `v[x] = xy & 0xFF`. -/
def AddXY.Execute (val : Nat) (s : Machine) : Machine :=
  let x := (val / 256) % 16
  let y := (val / 16) % 16
  let xy := (s.cpu.v x + s.cpu.v y) % 256
  let s1 := setV s 15 0
  let s2 := if xy > 0xFF then setV s1 15 1 else s1
  setV s2 x (xy % 256)

/-- 8xy5 - SUB Vx, Vy: `xy := v[x] - v[y]`, then `v[F] = 0`, then VF set
when `v[x] > v[y]` (strict, reading the registers after the VF reset),
then `v[x] = xy`. -/
def SubXY.Execute (val : Nat) (s : Machine) : Machine :=
  let x := (val / 256) % 16
  let y := (val / 16) % 16
  let xy := sub8 (s.cpu.v x) (s.cpu.v y)
  let s1 := setV s 15 0
  let s2 := if s1.cpu.v x > s1.cpu.v y then setV s1 15 1 else s1
  setV s2 x xy

/-- 8xy6 - SHR Vx: VF from the low bit, then `v[x] /= 2`. -/
def SHR.Execute (val : Nat) (s : Machine) : Machine :=
  let x := (val / 256) % 16
  let s1 := setV s 15 0
  let s2 := if s1.cpu.v x % 2 = 1 then setV s1 15 1 else s1
  setV s2 x (s2.cpu.v x / 2)

/-- 8xy7 - SUBN Vx, Vy: `yx := v[y] - v[x]`, VF reset, VF set when
`v[y] > v[x]` (strict), then `v[x] = yx`. -/
def SubN.Execute (val : Nat) (s : Machine) : Machine :=
  let x := (val / 256) % 16
  let y := (val / 16) % 16
  let yx := sub8 (s.cpu.v y) (s.cpu.v x)
  let s1 := setV s 15 0
  let s2 := if s1.cpu.v y > s1.cpu.v x then setV s1 15 1 else s1
  setV s2 x yx

/-- 8xyE - SHL Vx: the source computes VF from `(v[x] >> 3) & 1` (bit 3),
then `v[x] *= 2` (wrapping `uint8` product). -/
def SHL.Execute (val : Nat) (s : Machine) : Machine :=
  let x := (val / 256) % 16
  let s1 := setV s 15 0
  let s2 := if (s1.cpu.v x / 8) % 2 = 1 then setV s1 15 1 else s1
  setV s2 x (s2.cpu.v x * 2)

/-- 9xy0 - SNE Vx, Vy. -/
def SkipNotXY.Execute (val : Nat) (s : Machine) : Machine :=
  let x := (val / 256) % 16
  let y := (val / 16) % 16
  if s.cpu.v x ≠ s.cpu.v y then
    { s with cpu := { s.cpu with pc := (s.cpu.pc + InstructionSize) % 65536 } }
  else s

/-- Annn - LD I, addr. -/
def LoadI.Execute (val : Nat) (s : Machine) : Machine :=
  { s with cpu := { s.cpu with i := val % 4096 } }

/-- Bnnn - JP V0, addr: `pc = nnn + v[0]` (16-bit sum). -/
def JumpV0.Execute (val : Nat) (s : Machine) : Machine :=
  { s with cpu := { s.cpu with pc := (val % 4096 + s.cpu.v 0) % 65536 } }

/-- Cxkk - RND Vx, byte: `v[x] = rand.Intn(255) & kk`; the random draw is
an external input, passed in as `rnd` (taken mod 255 as `Intn(255)` is). -/
def RND.Execute (rnd val : Nat) (s : Machine) : Machine :=
  setV s ((val / 256) % 16) (Nat.land (rnd % 255) (val % 256))

/-- One XOR-compositing step of the draw loop body: check the target cell
for a collision (sets VF), then flip it. -/
def drawPixel (s : Machine) (idx : Nat) : Machine :=
  let s1 := if s.display idx = 1 then setV s 15 1 else s
  { s1 with display := upd s1.display idx (Nat.xor (s1.display idx) 1) }

/-- The body of Draw's inner `xline` loop: if bit `xline` of the sprite
byte is set, XOR the cell at the wrapped coordinates. -/
def drawBit (x y yline pixel : Nat) (t : Machine) (xline : Nat) : Machine :=
  if Nat.land pixel (Nat.shiftRight 0x80 xline) ≠ 0 then
    drawPixel t ((x + xline) % DisplayWidth + ((y + yline) % DisplayHeight) * 64)
  else t

/-- The inner `xline` loop of Draw: for each of the 8 sprite-byte bits that
is set, XOR the cell at the wrapped coordinates. -/
def drawRowBits (s : Machine) (x y yline pixel : Nat) : Machine :=
  (List.range 8).foldl (drawBit x y yline pixel) s

/-- The outer `yline` loop of Draw: read the sprite byte at
`ram.data[i + yline]` (bounds-checked) and composite its bits.  `rem` is
the number of rows still to draw. -/
def drawRows (x y : Nat) : Nat → Nat → Machine → Except Machine Machine
  | _, 0, s => .ok s
  | yline, rem + 1, s =>
    match ramRead s ((s.cpu.i + yline) % 65536) with
    | none => .error s
    | some pixel => drawRows x y (yline + 1) rem (drawRowBits s x y yline pixel)

/-- Dxyn - DRW Vx, Vy, nibble (inst.go `Draw.Execute`): read the start
coordinates from `v`, reset VF, then run the row loop. -/
def Draw.Execute (val : Nat) (s : Machine) : Except Machine Machine :=
  let x := s.cpu.v ((val / 256) % 16)
  let y := s.cpu.v ((val / 16) % 16)
  let height := val % 16
  drawRows x y 0 height (setV s 15 0)

/-- Ex9E - SKP Vx. -/
def SkipKey.Execute (val : Nat) (s : Machine) : Machine :=
  if s.keys ((val / 256) % 16) then
    { s with cpu := { s.cpu with pc := (s.cpu.pc + InstructionSize) % 65536 } }
  else s

/-- ExA1 - SKNP Vx. -/
def SkipNotKey.Execute (val : Nat) (s : Machine) : Machine :=
  if s.keys ((val / 256) % 16) then s
  else { s with cpu := { s.cpu with pc := (s.cpu.pc + InstructionSize) % 65536 } }

/-- Fx07 - LD Vx, DT. -/
def GetDelayTimer.Execute (val : Nat) (s : Machine) : Machine :=
  setV s ((val / 256) % 16) s.cpu.dt

/-- Fx0A - LD Vx, K: the source body is empty (the wait is unimplemented). -/
def WaitKey.Execute (_ : Nat) (s : Machine) : Machine :=
  s

/-- Fx15 - LD DT, Vx. -/
def SetDelayTimer.Execute (val : Nat) (s : Machine) : Machine :=
  { s with cpu := { s.cpu with dt := s.cpu.v ((val / 256) % 16) % 65536 } }

/-- Fx18 - LD ST, Vx. -/
def SetSoundTimer.Execute (val : Nat) (s : Machine) : Machine :=
  { s with cpu := { s.cpu with st := s.cpu.v ((val / 256) % 16) % 65536 } }

/-- Fx1E - ADD I, Vx: `i += v[x]` (plain 16-bit add, no 12-bit mask). -/
def AddI.Execute (val : Nat) (s : Machine) : Machine :=
  { s with cpu := { s.cpu with i := (s.cpu.i + s.cpu.v ((val / 256) % 16)) % 65536 } }

/-- Fx29 - LD F, Vx: `i = v[x] * SpriteSize`. -/
def LoadSprite.Execute (val : Nat) (s : Machine) : Machine :=
  { s with cpu := { s.cpu with i := s.cpu.v ((val / 256) % 16) * SpriteSize % 65536 } }

/-- Fx33 - LD B, Vx: three sequential bounds-checked byte writes at
`i`, `i+1`, `i+2` with the decimal digits of `v[x]`. -/
def StoreBCD.Execute (val : Nat) (s : Machine) : Except Machine Machine :=
  let vx := s.cpu.v ((val / 256) % 16)
  let i := s.cpu.i
  match ramWrite s i (vx / 100) with
  | .error t => .error t
  | .ok s1 =>
    match ramWrite s1 ((i + 1) % 65536) ((vx / 10) % 10) with
    | .error t => .error t
    | .ok s2 => ramWrite s2 ((i + 2) % 65536) (vx % 100 % 10)

/-- The Fx55 store loop: `rem` iterations left, writing `v[k]` to
`ram.data[i + k]` (bounds-checked); `i` is re-read from the state each
iteration, as in the source. -/
def wmGo : Nat → Nat → Machine → Except Machine Machine
  | 0, _, s => .ok s
  | rem + 1, k, s =>
    let a := (s.cpu.i + k) % 65536
    if a < RamSize then
      wmGo rem (k + 1) { s with ram := upd s.ram a (s.cpu.v k % 256) }
    else .error s

/-- Fx55 - LD [I], Vx: copy `v[0..x]` into memory at `i` (x+1 writes). -/
def WriteMemory.Execute (val : Nat) (s : Machine) : Except Machine Machine :=
  wmGo ((val / 256) % 16 + 1) 0 s

/-- The Fx65 load loop: `rem` iterations left, reading `ram.data[i + k]`
(bounds-checked) into `v[k]`. -/
def rmGo : Nat → Nat → Machine → Except Machine Machine
  | 0, _, s => .ok s
  | rem + 1, k, s =>
    let a := (s.cpu.i + k) % 65536
    if a < RamSize then
      rmGo rem (k + 1) (setV s k (s.ram a))
    else .error s

/-- Fx65 - LD Vx, [I]: copy memory at `i` into `v[0..x]` (x+1 reads). -/
def ReadMemory.Execute (val : Nat) (s : Machine) : Except Machine Machine :=
  rmGo ((val / 256) % 16 + 1) 0 s

/-- The opcode classes produced by `ReadInstruction`'s switch in
chip8/cpu.go.  `Base` is the default `BaseInstruction` (no-op `Execute`). -/
inductive InstKind where
  | Clear | Ret | Jump | Call | SkipX | SkipNotX | SkipXY | LoadX | AddX
  | LoadXY | OR | AND | XOR | AddXY | SubXY | SHR | SubN | SHL | SkipNotXY
  | LoadI | JumpV0 | RND | Draw | SkipKey | SkipNotKey | GetDelayTimer
  | WaitKey | SetDelayTimer | SetSoundTimer | AddI | LoadSprite | StoreBCD
  | WriteMemory | ReadMemory | Base
  deriving DecidableEq

/-- The decode switch of `ReadInstruction` (chip8/cpu.go): dispatch on the
top nibble, then on the sub-field the source switches on. -/
def decode (val : Nat) : InstKind :=
  match (val / 4096) % 16 with
  | 0 => if val = 0x00E0 then .Clear else if val = 0x00EE then .Ret else .Base
  | 1 => .Jump
  | 2 => .Call
  | 3 => .SkipX
  | 4 => .SkipNotX
  | 5 => .SkipXY
  | 6 => .LoadX
  | 7 => .AddX
  | 8 =>
    match val % 16 with
    | 0 => .LoadXY
    | 1 => .OR
    | 2 => .AND
    | 3 => .XOR
    | 4 => .AddXY
    | 5 => .SubXY
    | 6 => .SHR
    | 7 => .SubN
    | 14 => .SHL
    | _ => .Base
  | 9 => .SkipNotXY
  | 10 => .LoadI
  | 11 => .JumpV0
  | 12 => .RND
  | 13 => .Draw
  | 14 =>
    match val % 256 with
    | 0x9E => .SkipKey
    | 0xA1 => .SkipNotKey
    | _ => .Base
  | 15 =>
    match val % 256 with
    | 0x07 => .GetDelayTimer
    | 0x0A => .WaitKey
    | 0x15 => .SetDelayTimer
    | 0x18 => .SetSoundTimer
    | 0x1E => .AddI
    | 0x29 => .LoadSprite
    | 0x33 => .StoreBCD
    | 0x55 => .WriteMemory
    | 0x65 => .ReadMemory
    | _ => .Base
  | _ => .Base

/-- Dispatch a decoded opcode to its `Execute` (the dynamic dispatch of
`Instruction.Execute` in the source).  `rnd` feeds the Cxkk random draw. -/
def execute (rnd : Nat) (k : InstKind) (val : Nat) (s : Machine) :
    Except Machine Machine :=
  match k with
  | .Clear => .ok (Clear.Execute s)
  | .Ret => Return.Execute s
  | .Jump => .ok (Jump.Execute val s)
  | .Call => Call.Execute val s
  | .SkipX => .ok (SkipX.Execute val s)
  | .SkipNotX => .ok (SkipNotX.Execute val s)
  | .SkipXY => .ok (SkipXY.Execute val s)
  | .LoadX => .ok (LoadX.Execute val s)
  | .AddX => .ok (AddX.Execute val s)
  | .LoadXY => .ok (LoadXY.Execute val s)
  | .OR => .ok (OR.Execute val s)
  | .AND => .ok (AND.Execute val s)
  | .XOR => .ok (XOR.Execute val s)
  | .AddXY => .ok (AddXY.Execute val s)
  | .SubXY => .ok (SubXY.Execute val s)
  | .SHR => .ok (SHR.Execute val s)
  | .SubN => .ok (SubN.Execute val s)
  | .SHL => .ok (SHL.Execute val s)
  | .SkipNotXY => .ok (SkipNotXY.Execute val s)
  | .LoadI => .ok (LoadI.Execute val s)
  | .JumpV0 => .ok (JumpV0.Execute val s)
  | .RND => .ok (RND.Execute rnd val s)
  | .Draw => Draw.Execute val s
  | .SkipKey => .ok (SkipKey.Execute val s)
  | .SkipNotKey => .ok (SkipNotKey.Execute val s)
  | .GetDelayTimer => .ok (GetDelayTimer.Execute val s)
  | .WaitKey => .ok (WaitKey.Execute val s)
  | .SetDelayTimer => .ok (SetDelayTimer.Execute val s)
  | .SetSoundTimer => .ok (SetSoundTimer.Execute val s)
  | .AddI => .ok (AddI.Execute val s)
  | .LoadSprite => .ok (LoadSprite.Execute val s)
  | .StoreBCD => StoreBCD.Execute val s
  | .WriteMemory => WriteMemory.Execute val s
  | .ReadMemory => ReadMemory.Execute val s
  | .Base => .ok s

/-- Result of one `ReadInstruction`+`Execute` round: the fetched word was
zero (`halt`, state untouched), an array index panicked (`crash`, with the
state as mutated so far), or the instruction executed (`stepped`). -/
inductive StepResult where
  | halt (s : Machine)
  | crash (s : Machine)
  | stepped (s : Machine)

/-- One fetch-decode-execute cycle (chip8/cpu.go `ReadInstruction` followed
by the run loop's `Execute` call): read the two bytes at `pc`, return the
halt signal before touching any state when the word is zero, otherwise
advance `pc` by 2, decode and execute. -/
def step (rnd : Nat) (s : Machine) : StepResult :=
  match ramRead s s.cpu.pc, ramRead s ((s.cpu.pc + 1) % 65536) with
  | some hi, some lo =>
    let val := Nat.lor (Nat.shiftLeft hi 8) lo
    if val = 0 then .halt s
    else
      let s1 : Machine :=
        { s with cpu := { s.cpu with pc := (s.cpu.pc + InstructionSize) % 65536 } }
      match execute rnd (decode val) val s1 with
      | .ok s2 => .stepped s2
      | .error s2 => .crash s2
  | _, _ => .crash s

/-- chip8/cpu.go `UpdateTimers`: decrement each timer when positive. -/
def UpdateTimers (s : Machine) : Machine :=
  let s1 := if s.cpu.dt > 0 then { s with cpu := { s.cpu with dt := s.cpu.dt - 1 } } else s
  if s1.cpu.st > 0 then { s1 with cpu := { s1.cpu with st := s1.cpu.st - 1 } } else s1

/-- One iteration of the emulator.go `Run` loop: `ReadInstruction`, break
on nil, `Execute`, then `UpdateTimers` — the timer update runs after every
executed instruction. -/
def runIter (rnd : Nat) (s : Machine) : StepResult :=
  match step rnd s with
  | .stepped s' => .stepped (UpdateTimers s')
  | r => r

/-- The ram.go `LoadRom` copy loop: write byte `k` of the ROM to
`data[ProgramLocation + k]` (bounds-checked), walking the ROM bytes in
order; a panicking write keeps the writes already performed. -/
def loadRomLoop : Nat → List Nat → (Nat → Nat) → Except (Nat → Nat) (Nat → Nat)
  | _, [], mem => .ok mem
  | k, b :: rest, mem =>
    if ProgramLocation + k < RamSize then
      loadRomLoop (k + 1) rest (upd mem (ProgramLocation + k) (b % 256))
    else .error mem

/-- ram.go `RAM.LoadRom`: copy the ROM bytes into memory at 0x200. -/
def RAM.LoadRom (rom : List Nat) (mem : Nat → Nat) : Except (Nat → Nat) (Nat → Nat) :=
  loadRomLoop 0 rom mem

/-- Iterate `Call.Execute` with the same opcode word (nested subroutine
calls); a panic stops the iteration, keeping the panic state. -/
def iterCalls (val : Nat) (s : Machine) : Nat → Except Machine Machine
  | 0 => .ok s
  | n + 1 =>
    match iterCalls val s n with
    | .ok t => Call.Execute val t
    | .error t => .error t

/-- Extract the carried machine from an `Except` result (the heap state,
whether the operation returned or panicked). -/
def exceptState : Except Machine Machine → Machine
  | .ok s => s
  | .error s => s

/-- True when the `Except` result is a normal return (no panic). -/
def isOkE : Except Machine Machine → Bool
  | .ok _ => true
  | .error _ => false

/-- Extract the carried machine from a `StepResult`. -/
def stepState : StepResult → Machine
  | .halt s => s
  | .crash s => s
  | .stepped s => s

/-- True when a cycle executed an instruction (neither halt nor crash). -/
def isStepped : StepResult → Bool
  | .stepped _ => true
  | _ => false

/-- True when a memory-load result is a normal return. -/
def isOkM : Except (Nat → Nat) (Nat → Nat) → Bool
  | .ok _ => true
  | .error _ => false

/-- Extract the memory from a load result (final or at the panic). -/
def loadState : Except (Nat → Nat) (Nat → Nat) → (Nat → Nat)
  | .ok m => m
  | .error m => m

/-- Following the spec's words for Dxyn: sprite row `r`, column `c` holds a
set bit and targets the wrapped cell `(cx, cy)`.  Used to compare the
drawn frame against the spec's per-bit description. -/
def drawHitSpec (s : Machine) (x y n cx cy : Nat) : Bool :=
  (List.range n).any fun r =>
    (List.range 8).any fun c =>
      (Nat.land (s.ram ((s.cpu.i + r) % 65536)) (Nat.shiftRight 0x80 c) != 0)
        && (cx == (x + c) % 64) && (cy == (y + r) % 32)

/-- Following the spec's words for Dxyn collision: some set sprite bit
targets a cell that is already set before the draw. -/
def drawCollideSpec (s : Machine) (x y n : Nat) : Bool :=
  (List.range n).any fun r =>
    (List.range 8).any fun c =>
      (Nat.land (s.ram ((s.cpu.i + r) % 65536)) (Nat.shiftRight 0x80 c) != 0)
        && (s.display ((x + c) % 64 + ((y + r) % 32) * 64) == 1)

/-- Fold `drawPixel` over a list of target cells (the flattened draw). -/
def processList (s : Machine) (L : List Nat) : Machine :=
  L.foldl drawPixel s

/-- The target cells of one sprite row, in column order. -/
def rowTargets (x y yline pixel : Nat) : List Nat :=
  (List.range 8).filterMap fun c =>
    if Nat.land pixel (Nat.shiftRight 0x80 c) ≠ 0 then
      some ((x + c) % DisplayWidth + ((y + yline) % DisplayHeight) * 64)
    else none

/-- The target cells of a whole draw, rows `yline, yline+1, ...` with
sprite bytes read from `mem` at `i + row`. -/
def drawTargets (mem : Nat → Nat) (i x y : Nat) : Nat → Nat → List Nat
  | _, 0 => []
  | yline, rem + 1 =>
    rowTargets x y yline (mem ((i + yline) % 65536)) ++
      drawTargets mem i x y (yline + 1) rem

/-- A freshly initialised machine: zeroed state, `pc = ProgramLocation`
(`NewCPU`, `NewRAM`, `NewDisplay`). -/
def initMachine : Machine :=
  { cpu := { stack := fun _ => 0, v := fun _ => 0, sp := 0, pc := ProgramLocation,
             i := 0, dt := 0, st := 0 },
    ram := fun _ => 0, display := fun _ => 0, keys := fun _ => false }

/-- Machine with `V0 = V1 = 5` (SUB/SUBN equality inputs). -/
def subEqMachine : Machine :=
  { initMachine with cpu := { initMachine.cpu with v := upd (upd (fun _ => 0) 0 5) 1 5 } }

/-- Machine with `V0 = 0b10000001` (SHL input). -/
def shlMachine : Machine :=
  { initMachine with cpu := { initMachine.cpu with v := upd (fun _ => 0) 0 0x81 } }

/-- Machine whose program is `F1 0A` (LD V1, K) at 0x200, with `V1 = 7`
and no key pressed. -/
def waitKeyMachine : Machine :=
  { initMachine with
    cpu := { initMachine.cpu with v := upd (fun _ => 0) 1 7 },
    ram := upd (upd (fun _ => 0) 0x200 0xF1) 0x201 0x0A }

/-- Machine whose program is `60 05` (LD V0, 5) at 0x200, with the delay
timer at 1 and the sound timer at 2. -/
def timerMachine : Machine :=
  { initMachine with
    cpu := { initMachine.cpu with dt := 1, st := 2 },
    ram := upd (upd (fun _ => 0) 0x200 0x60) 0x201 0x05 }

/-- Machine with `I = 0xFFF` and `V0 = 1` (AddI overflow input). -/
def addIMachine : Machine :=
  { initMachine with cpu := { initMachine.cpu with i := 0xFFF, v := upd (fun _ => 0) 0 1 } }

/-- Machine with `I = 0xFFF` (indexed access at the top of memory). -/
def topIMachine : Machine :=
  { initMachine with cpu := { initMachine.cpu with i := 0xFFF } }

/-- Machine for the draw witness: `V0 = 60`, `I = 0x300`, sprite byte
`0xFF` at 0x300. -/
def drawMachine : Machine :=
  { initMachine with
    cpu := { initMachine.cpu with i := 0x300, v := upd (fun _ => 0) 0 60 },
    ram := upd (fun _ => 0) 0x300 0xFF }

/-- Machine with the stack pointer at 15 (the last usable push slot). -/
def sp15Machine : Machine :=
  { initMachine with cpu := { initMachine.cpu with sp := 15 } }

/-- All-zero memory. -/
def zeroMem : Nat → Nat := fun _ => 0

/-- Write a list of bytes to consecutive addresses starting at `base`
(the net effect of the `LoadRom` copy loop on memory). -/
def writeList (mem : Nat → Nat) (base : Nat) : List Nat → (Nat → Nat)
  | [] => mem
  | b :: rest => writeList (upd mem base (b % 256)) (base + 1) rest

/-- What a successful CALL does: `sp` incremented, the old `pc` pushed to
slot `sp+1`, `pc` set to `nnn`. -/
def CallPushSpec (val : Nat) (s : Machine) : Prop :=
  Call.Execute val s = .ok { s with cpu := { s.cpu with
    sp := s.cpu.sp + 1,
    stack := upd s.cpu.stack (s.cpu.sp + 1) (s.cpu.pc % 65536),
    pc := val % 4096 } }

/-- What CALL does from `sp = 15`: the pre-incremented `sp` reaches 16 and
the push panics out of range, with `sp` left mutated and `pc`/stack
untouched. -/
def CallCrashSpec (val : Nat) (s : Machine) : Prop :=
  Call.Execute val s = .error { s with cpu := { s.cpu with sp := 16 } }

/-- What RET does on an empty stack: no underflow error — `pc` is loaded
from slot 0 and the byte `sp` wraps around to 255. -/
def RetEmptySpec (s : Machine) : Prop :=
  Return.Execute s = .ok { s with cpu := { s.cpu with pc := s.cpu.stack 0, sp := 255 } }

/-- What RET does with `1 ≤ sp < 16`: pop slot `sp`, decrement `sp`. -/
def RetPopSpec (s : Machine) : Prop :=
  Return.Execute s = .ok { s with cpu := { s.cpu with
    pc := s.cpu.stack s.cpu.sp, sp := s.cpu.sp - 1 } }

/-- What `LoadRom` does when the ROM fits: every byte copied to
`0x200 + j`, returned normally. -/
def LoadOkSpec (rom : List Nat) (mem : Nat → Nat) : Prop :=
  RAM.LoadRom rom mem = .ok (writeList mem ProgramLocation rom) ∧
  ∀ j, j < rom.length →
    loadState (RAM.LoadRom rom mem) (ProgramLocation + j) = rom.getD j 0 % 256

/-- What `LoadRom` does when the ROM is oversized: the 3584 in-range bytes
are written, then the copy loop panics out of range. -/
def LoadErrSpec (rom : List Nat) (mem : Nat → Nat) : Prop :=
  RAM.LoadRom rom mem = .error (writeList mem ProgramLocation (rom.take 3584)) ∧
  ∀ j, j < 3584 →
    loadState (RAM.LoadRom rom mem) (ProgramLocation + j) = rom.getD j 0 % 256

/-- The Dxyn contract of the spec, relative to a start state `s` and
opcode word `val`: the draw succeeds, every display cell is XOR-flipped
exactly when some set sprite bit wraps onto it (`drawHitSpec`), VF ends 1
exactly when some set bit lands on an already-set cell
(`drawCollideSpec`), and registers V0..VE, `pc` and RAM are untouched. -/
def DrawClaim (val : Nat) (s : Machine) : Prop :=
  isOkE (Draw.Execute val s) = true ∧
  (∀ cx cy, cx < 64 → cy < 32 →
    (exceptState (Draw.Execute val s)).display (cx + cy * 64) =
      if drawHitSpec s (s.cpu.v ((val / 256) % 16)) (s.cpu.v ((val / 16) % 16))
           (val % 16) cx cy = true
      then Nat.xor (s.display (cx + cy * 64)) 1
      else s.display (cx + cy * 64)) ∧
  ((exceptState (Draw.Execute val s)).cpu.v 15 =
    if drawCollideSpec s (s.cpu.v ((val / 256) % 16)) (s.cpu.v ((val / 16) % 16))
         (val % 16) = true
    then 1 else 0) ∧
  (∀ j, j < 15 → (exceptState (Draw.Execute val s)).cpu.v j = s.cpu.v j) ∧
  (exceptState (Draw.Execute val s)).cpu.pc = s.cpu.pc ∧
  (exceptState (Draw.Execute val s)).ram = s.ram

/-- Unfolding helper: `StackSize` is 16. -/
theorem StackSize_eq : StackSize = 16 := rfl

/-- Unfolding helper: `RamSize` is 4096. -/
theorem RamSize_eq : RamSize = 4096 := rfl

/-- Unfolding helper: `ProgramLocation` is 0x200. -/
theorem ProgramLocation_eq : ProgramLocation = 512 := rfl

/-- Unfolding helper: `DisplayWidth` is 64. -/
theorem DisplayWidth_eq : DisplayWidth = 64 := rfl

/-- Unfolding helper: `DisplayHeight` is 32. -/
theorem DisplayHeight_eq : DisplayHeight = 32 := rfl

/-- Reading the updated cell. -/
theorem upd_self (f : Nat → Nat) (a v : Nat) : upd f a v a = v := by
  simp [upd]

/-- Reading another cell. -/
theorem upd_ne (f : Nat → Nat) (a v b : Nat) (h : b ≠ a) : upd f a v b = f b := by
  simp [upd, h]

/-- `drawPixel` leaves the index register alone. -/
theorem drawPixel_cpu_i (s : Machine) (idx : Nat) : (drawPixel s idx).cpu.i = s.cpu.i := by
  by_cases h : s.display idx = 1 <;> simp [drawPixel, setV, h]

/-- `drawPixel` leaves RAM alone. -/
theorem drawPixel_ram (s : Machine) (idx : Nat) : (drawPixel s idx).ram = s.ram := by
  by_cases h : s.display idx = 1 <;> simp [drawPixel, setV, h]

/-- `drawPixel` leaves the program counter alone. -/
theorem drawPixel_pc (s : Machine) (idx : Nat) : (drawPixel s idx).cpu.pc = s.cpu.pc := by
  by_cases h : s.display idx = 1 <;> simp [drawPixel, setV, h]

/-- `drawPixel` can touch only register 15. -/
theorem drawPixel_v_ne (s : Machine) (idx j : Nat) (h : j ≠ 15) :
    (drawPixel s idx).cpu.v j = s.cpu.v j := by
  by_cases hc : s.display idx = 1 <;> simp [drawPixel, setV, upd, hc, h]

/-- The display cells after one `drawPixel`: the target is XOR-flipped,
everything else is untouched. -/
theorem drawPixel_display (s : Machine) (idx j : Nat) :
    (drawPixel s idx).display j =
      if j = idx then Nat.xor (s.display idx) 1 else s.display j := by
  by_cases hc : s.display idx = 1 <;> by_cases hj : j = idx <;>
    simp [drawPixel, setV, upd, hc, hj]

/-- VF after one `drawPixel`: set on a collision, otherwise untouched. -/
theorem drawPixel_v15 (s : Machine) (idx : Nat) :
    (drawPixel s idx).cpu.v 15 = if s.display idx = 1 then 1 else s.cpu.v 15 := by
  by_cases hc : s.display idx = 1 <;> simp [drawPixel, setV, upd, hc]

/-- The inner draw loop leaves the index register alone. -/
theorem foldl_drawBit_cpu_i (x y yline pixel : Nat) (L : List Nat) : ∀ (s : Machine),
    (L.foldl (drawBit x y yline pixel) s).cpu.i = s.cpu.i := by
  induction L with
  | nil => intro s; rfl
  | cons c L ih =>
    intro s
    rw [List.foldl_cons, ih]
    unfold drawBit
    split
    · exact drawPixel_cpu_i _ _
    · rfl

/-- The inner draw loop leaves RAM alone. -/
theorem foldl_drawBit_ram (x y yline pixel : Nat) (L : List Nat) : ∀ (s : Machine),
    (L.foldl (drawBit x y yline pixel) s).ram = s.ram := by
  induction L with
  | nil => intro s; rfl
  | cons c L ih =>
    intro s
    rw [List.foldl_cons, ih]
    unfold drawBit
    split
    · exact drawPixel_ram _ _
    · rfl

/-- `drawRowBits` leaves the index register alone. -/
theorem drawRowBits_cpu_i (s : Machine) (x y yline pixel : Nat) :
    (drawRowBits s x y yline pixel).cpu.i = s.cpu.i :=
  foldl_drawBit_cpu_i x y yline pixel (List.range 8) s

/-- `drawRowBits` leaves RAM alone. -/
theorem drawRowBits_ram (s : Machine) (x y yline pixel : Nat) :
    (drawRowBits s x y yline pixel).ram = s.ram :=
  foldl_drawBit_ram x y yline pixel (List.range 8) s

/-- Reduction of the draw row loop when the sprite read is in range. -/
theorem drawRows_succ_in (x y yline rem : Nat) (s : Machine)
    (h : (s.cpu.i + yline) % 65536 < 4096) :
    drawRows x y yline (rem + 1) s =
      drawRows x y (yline + 1) rem
        (drawRowBits s x y yline (s.ram ((s.cpu.i + yline) % 65536))) := by
  conv_lhs => unfold drawRows
  unfold ramRead
  rw [RamSize_eq, if_pos h]

/-- Reduction of the draw row loop when the sprite read panics. -/
theorem drawRows_succ_out (x y yline rem : Nat) (s : Machine)
    (h : ¬ (s.cpu.i + yline) % 65536 < 4096) :
    drawRows x y yline (rem + 1) s = .error s := by
  conv_lhs => unfold drawRows
  unfold ramRead
  rw [RamSize_eq, if_neg h]

/-- The draw row loop returns normally iff every sprite-row address is in
range of the 4096-byte RAM. -/
theorem drawRows_ok_iff (x y : Nat) : ∀ (rem yline : Nat) (s : Machine),
    isOkE (drawRows x y yline rem s) = true ↔
      ∀ r, r < rem → (s.cpu.i + (yline + r)) % 65536 < 4096 := by
  intro rem
  induction rem with
  | zero =>
    intro yline s
    constructor
    · intro _ r hr; omega
    · intro _; rfl
  | succ rem ih =>
    intro yline s
    by_cases h : (s.cpu.i + yline) % 65536 < 4096
    · rw [drawRows_succ_in x y yline rem s h]
      rw [ih (yline + 1) _]
      rw [drawRowBits_cpu_i]
      constructor
      · intro hall r hr
        match r, hr with
        | 0, _ => simpa using h
        | r' + 1, hr =>
          have h2 := hall r' (by omega)
          have e : s.cpu.i + (yline + (r' + 1)) = s.cpu.i + (yline + 1 + r') := by omega
          rw [e]; exact h2
      · intro hall r hr
        have h2 := hall (r + 1) (by omega)
        have e : s.cpu.i + (yline + 1 + r) = s.cpu.i + (yline + (r + 1)) := by omega
        rw [e]; exact h2
    · rw [drawRows_succ_out x y yline rem s h]
      constructor
      · intro hF; simp [isOkE] at hF
      · intro hall
        exact absurd (by simpa using hall 0 (Nat.succ_pos rem)) h

/-- The Fx55 store loop returns normally iff every address it writes is in
range of the 4096-byte RAM. -/
theorem wmGo_ok_iff : ∀ (rem k : Nat) (s : Machine),
    isOkE (wmGo rem k s) = true ↔ ∀ j, j < rem → (s.cpu.i + k + j) % 65536 < 4096 := by
  intro rem
  induction rem with
  | zero =>
    intro k s
    constructor
    · intro _ j hj; omega
    · intro _; rfl
  | succ rem ih =>
    intro k s
    simp only [wmGo, RamSize_eq]
    by_cases h : (s.cpu.i + k) % 65536 < 4096
    · rw [if_pos h]
      rw [ih (k + 1) _]
      constructor
      · intro hall j hj
        match j, hj with
        | 0, _ => simpa using h
        | j' + 1, hj =>
          have h2 := hall j' (by omega)
          have e : s.cpu.i + k + (j' + 1) = s.cpu.i + (k + 1) + j' := by omega
          rw [e]; exact h2
      · intro hall j hj
        have h2 := hall (j + 1) (by omega)
        have e : s.cpu.i + (k + 1) + j = s.cpu.i + k + (j + 1) := by omega
        rw [e]; exact h2
    · rw [if_neg h]
      constructor
      · intro hF; simp [isOkE] at hF
      · intro hall
        exact absurd (by simpa using hall 0 (Nat.succ_pos rem)) h

/-- The Fx65 load loop returns normally iff every address it reads is in
range of the 4096-byte RAM. -/
theorem rmGo_ok_iff : ∀ (rem k : Nat) (s : Machine),
    isOkE (rmGo rem k s) = true ↔ ∀ j, j < rem → (s.cpu.i + k + j) % 65536 < 4096 := by
  intro rem
  induction rem with
  | zero =>
    intro k s
    constructor
    · intro _ j hj; omega
    · intro _; rfl
  | succ rem ih =>
    intro k s
    simp only [rmGo, RamSize_eq]
    by_cases h : (s.cpu.i + k) % 65536 < 4096
    · rw [if_pos h]
      rw [ih (k + 1) _]
      simp only [setV]
      constructor
      · intro hall j hj
        match j, hj with
        | 0, _ => simpa using h
        | j' + 1, hj =>
          have h2 := hall j' (by omega)
          have e : s.cpu.i + k + (j' + 1) = s.cpu.i + (k + 1) + j' := by omega
          rw [e]; exact h2
      · intro hall j hj
        have h2 := hall (j + 1) (by omega)
        have e : s.cpu.i + (k + 1) + j = s.cpu.i + k + (j + 1) := by omega
        rw [e]; exact h2
    · rw [if_neg h]
      constructor
      · intro hF; simp [isOkE] at hF
      · intro hall
        exact absurd (by simpa using hall 0 (Nat.succ_pos rem)) h

/-- C1: the claim requires VF = 1 when Vx >= Vy (non-strict no-borrow),
so Vx = Vy = 5 must give VF = 1 under SUB (8xy5) and VF = 1 under SUBN
(8xy7).  The code compares strictly (`v[x] > v[y]` resp. `v[y] > v[x]`),
so at equality both leave VF = 0 (the difference 0 is stored as claimed). -/
theorem sub_subn_strict_flag_at_equal :
    decode 0x8015 = InstKind.SubXY ∧ decode 0x8017 = InstKind.SubN ∧
    subEqMachine.cpu.v 0 = 5 ∧ subEqMachine.cpu.v 1 = 5 ∧
    (SubXY.Execute 0x8015 subEqMachine).cpu.v 15 = 0 ∧
    (SubXY.Execute 0x8015 subEqMachine).cpu.v 0 = 0 ∧
    (SubN.Execute 0x8017 subEqMachine).cpu.v 15 = 0 ∧
    (SubN.Execute 0x8017 subEqMachine).cpu.v 0 = 0 := by
  decide

/-- C2: the claim requires VF = bit 7 of Vx before the shift, so
Vx = 0b10000001 must give VF = 1.  The code computes VF from bit 3
(`(v[x] >> 3) & 1`), which is 0 here; the shifted result 0b00000010 does
match the claim. -/
theorem shl_flag_from_bit3_at_0x81 :
    decode 0x800E = InstKind.SHL ∧ shlMachine.cpu.v 0 = 0x81 ∧
    (SHL.Execute 0x800E shlMachine).cpu.v 15 = 0 ∧
    (SHL.Execute 0x800E shlMachine).cpu.v 0 = 2 := by
  decide

/-- C5: the claim requires the cycle that reaches Fx0A not to advance PC
and not to proceed until a key is pressed.  With `F1 0A` fetched at
0x200 and no key pressed, the cycle executes normally: PC advances to
0x202 and V1 is untouched, because `WaitKey.Execute` is an empty stub. -/
theorem waitkey_stub_advances :
    decode 0xF10A = InstKind.WaitKey ∧
    (List.range 16).all (fun k => !waitKeyMachine.keys k) = true ∧
    waitKeyMachine.cpu.pc = 0x200 ∧
    isStepped (step 0 waitKeyMachine) = true ∧
    (stepState (step 0 waitKeyMachine)).cpu.pc = 0x202 ∧
    (stepState (step 0 waitKeyMachine)).cpu.v 1 = 7 ∧
    waitKeyMachine.cpu.v 1 = 7 := by
  decide

/-- C3 counterexample: from a fresh machine, nested CALLs crash on the
16th (not the 17th): the pre-incremented `sp` never uses slot 0, so the
15 pushes fill slots 1..15 and the 16th push indexes `stack[16]` out of
range — no StackOverflow error value, and the failed call has already
mutated `sp` to 16.  RET on the empty stack succeeds (no StackUnderflow):
it loads `pc` from slot 0 and wraps `sp` to 255. -/
theorem call_overflow_on_16th :
    isOkE (iterCalls 0x2300 initMachine 15) = true ∧
    (exceptState (iterCalls 0x2300 initMachine 15)).cpu.sp = 15 ∧
    isOkE (iterCalls 0x2300 initMachine 16) = false ∧
    (exceptState (iterCalls 0x2300 initMachine 16)).cpu.sp = 16 ∧
    (exceptState (iterCalls 0x2300 initMachine 16)).cpu.pc = 0x300 ∧
    isOkE (Return.Execute initMachine) = true ∧
    (exceptState (Return.Execute initMachine)).cpu.sp = 255 ∧
    (exceptState (Return.Execute initMachine)).cpu.pc = 0 := by
  decide

/-- C3 amended: CALL pushes with no capacity check — `sp` is incremented
first and the push writes slot `sp`, so pushes succeed exactly while
`sp < 15` and a push from `sp = 15` panics with `sp` left at 16; RET pops
with no underflow check — on an empty stack it succeeds, loading `pc`
from slot 0 and wrapping the byte `sp` to 255. -/
theorem call_ret_unchecked (val : Nat) (s : Machine) :
    (s.cpu.sp < 15 → CallPushSpec val s) ∧
    (s.cpu.sp = 15 → CallCrashSpec val s) ∧
    (s.cpu.sp = 0 → RetEmptySpec s) ∧
    (1 ≤ s.cpu.sp → s.cpu.sp < 16 → RetPopSpec s) := by
  refine ⟨?_, ?_, ?_, ?_⟩
  · intro h
    have e1 : (s.cpu.sp + 1) % 256 = s.cpu.sp + 1 := Nat.mod_eq_of_lt (by omega)
    simp only [CallPushSpec, Call.Execute, e1, StackSize_eq]
    rw [if_pos (by omega : s.cpu.sp + 1 < 16)]
  · intro h
    simp only [CallCrashSpec, Call.Execute, h, StackSize_eq]
    norm_num
  · intro h
    simp only [RetEmptySpec, Return.Execute, h, StackSize_eq]
    norm_num
  · intro h1 h2
    have e1 : (s.cpu.sp + 255) % 256 = s.cpu.sp - 1 := by omega
    simp only [RetPopSpec, Return.Execute, StackSize_eq, e1]
    rw [if_pos h2]

/-- C3 witness: the amended CALL/RET behaviour at concrete states — a
push from `sp = 0`, the crash from `sp = 15`, the wrap-around RET from
`sp = 0` and a pop from `sp = 15`. -/
theorem call_ret_unchecked_witness :
    CallPushSpec 0x2345 initMachine ∧ CallCrashSpec 0x2345 sp15Machine ∧
    RetEmptySpec initMachine ∧ RetPopSpec sp15Machine :=
  ⟨(call_ret_unchecked 0x2345 initMachine).1 (by decide),
   (call_ret_unchecked 0x2345 sp15Machine).2.1 (by decide),
   (call_ret_unchecked 0x2345 initMachine).2.2.1 (by decide),
   (call_ret_unchecked 0x2345 sp15Machine).2.2.2 (by decide) (by decide)⟩

/-- C6 counterexample: the claim says an executed instruction cycle never
changes the timers.  One iteration of the run loop on `LD V0, 5` (an
instruction that does not touch the timers) decrements both: the loop
calls `UpdateTimers` after every executed instruction. -/
theorem cycle_decrements_timers :
    decode 0x6005 = InstKind.LoadX ∧
    timerMachine.cpu.dt = 1 ∧ timerMachine.cpu.st = 2 ∧
    isStepped (runIter 0 timerMachine) = true ∧
    (stepState (runIter 0 timerMachine)).cpu.dt = 0 ∧
    (stepState (runIter 0 timerMachine)).cpu.st = 1 := by
  decide

/-- C6 amended: the timers are decremented (floored at zero) once per
executed instruction — every executed cycle of the run loop is followed
by `UpdateTimers`; there is no separate lower-frequency 60 Hz timer
invocation in the interpreter. -/
theorem timers_tick_every_instruction (rnd : Nat) (s s' : Machine)
    (h : step rnd s = .stepped s') :
    runIter rnd s = .stepped (UpdateTimers s') ∧
    (UpdateTimers s').cpu.dt = s'.cpu.dt - 1 ∧
    (UpdateTimers s').cpu.st = s'.cpu.st - 1 := by
  refine ⟨by simp [runIter, h], ?_, ?_⟩ <;>
    · simp only [UpdateTimers]
      split <;> split <;> simp_all

/-- C6 witness: the amended behaviour at the concrete `LD V0, 5` program
with `dt = 1`, `st = 2`. -/
theorem timers_tick_every_instruction_witness :
    runIter 0 timerMachine = .stepped (UpdateTimers (stepState (step 0 timerMachine))) ∧
    (UpdateTimers (stepState (step 0 timerMachine))).cpu.dt =
      (stepState (step 0 timerMachine)).cpu.dt - 1 ∧
    (UpdateTimers (stepState (step 0 timerMachine))).cpu.st =
      (stepState (step 0 timerMachine)).cpu.st - 1 :=
  timers_tick_every_instruction 0 timerMachine (stepState (step 0 timerMachine)) rfl

/-- C7 counterexample: with `I = 0xFFF` and `V0 = 1`, Fx1E leaves
`I = 0x1000`, outside 0x000–0xFFF and different from the claimed 12-bit
wrap `(0xFFF + 1) mod 0x1000 = 0`. -/
theorem addi_leaves_12bit_range :
    addIMachine.cpu.i = 0xFFF ∧ addIMachine.cpu.v 0 = 1 ∧
    (AddI.Execute 0xF01E addIMachine).cpu.i = 0x1000 ∧
    ¬ (AddI.Execute 0xF01E addIMachine).cpu.i ≤ 0xFFF ∧
    (AddI.Execute 0xF01E addIMachine).cpu.i ≠
      (addIMachine.cpu.i + addIMachine.cpu.v 0) % 4096 := by
  decide

/-- C7 amended: Fx1E stores `(I + Vx) mod 2^16` in I — a plain 16-bit
register addition with no 12-bit mask — so I is not confined to
0x000–0xFFF. -/
theorem addi_wraps_16bit (rnd val : Nat) (s : Machine)
    (h : decode val = InstKind.AddI) :
    execute rnd (decode val) val s =
      .ok { s with cpu := { s.cpu with
        i := (s.cpu.i + s.cpu.v ((val / 256) % 16)) % 65536 } } := by
  rw [h]; rfl

/-- C7 witness: the amended Fx1E behaviour at `I = 0xFFF`, `V0 = 1`. -/
theorem addi_wraps_16bit_witness :
    decode 0xF01E = InstKind.AddI ∧
    execute 0 (decode 0xF01E) 0xF01E addIMachine =
      .ok { addIMachine with cpu := { addIMachine.cpu with
        i := (addIMachine.cpu.i + addIMachine.cpu.v ((0xF01E / 256) % 16)) % 65536 } } :=
  ⟨by decide, addi_wraps_16bit 0 0xF01E addIMachine (by decide)⟩

/-- C8 counterexample: with `I = 0xFFF` the claim's 12-bit masking would
put every access in range, but Dxyn with n = 2, Fx55 with x = 1 and Fx65
with x = 1 all abort with an out-of-range RAM access at address 0x1000. -/
theorem indexed_access_unmasked :
    topIMachine.cpu.i = 0xFFF ∧
    decode 0xF155 = InstKind.WriteMemory ∧
    decode 0xF165 = InstKind.ReadMemory ∧
    decode 0xD002 = InstKind.Draw ∧
    isOkE (WriteMemory.Execute 0xF155 topIMachine) = false ∧
    isOkE (ReadMemory.Execute 0xF165 topIMachine) = false ∧
    isOkE (Draw.Execute 0xD002 topIMachine) = false := by
  decide

/-- C8 amended: the memory-indexed opcodes use addresses
`(I + offset) mod 2^16` with no 12-bit mask; each RAM access is
bounds-checked against the 4096-byte array and panics when out of range,
so Dxyn, Fx55 and Fx65 return normally exactly when every address they
touch is below 4096. -/
theorem indexed_access_bounds (val : Nat) (s : Machine) :
    (isOkE (WriteMemory.Execute val s) = true ↔
      ∀ k, k ≤ (val / 256) % 16 → (s.cpu.i + k) % 65536 < 4096) ∧
    (isOkE (ReadMemory.Execute val s) = true ↔
      ∀ k, k ≤ (val / 256) % 16 → (s.cpu.i + k) % 65536 < 4096) ∧
    (isOkE (Draw.Execute val s) = true ↔
      ∀ r, r < val % 16 → (s.cpu.i + r) % 65536 < 4096) := by
  refine ⟨?_, ?_, ?_⟩
  · rw [show WriteMemory.Execute val s = wmGo ((val / 256) % 16 + 1) 0 s from rfl]
    rw [wmGo_ok_iff]
    constructor
    · intro hall k hk
      have h2 := hall k (by omega)
      simpa using h2
    · intro hall j hj
      have h2 := hall j (by omega)
      simpa using h2
  · rw [show ReadMemory.Execute val s = rmGo ((val / 256) % 16 + 1) 0 s from rfl]
    rw [rmGo_ok_iff]
    constructor
    · intro hall k hk
      have h2 := hall k (by omega)
      simpa using h2
    · intro hall j hj
      have h2 := hall j (by omega)
      simpa using h2
  · rw [show Draw.Execute val s =
        drawRows (s.cpu.v ((val / 256) % 16)) (s.cpu.v ((val / 16) % 16)) 0
          (val % 16) (setV s 15 0) from rfl]
    rw [drawRows_ok_iff]
    simp only [setV]
    constructor
    · intro hall r hr
      have h2 := hall r hr
      simpa using h2
    · intro hall r hr
      have h2 := hall r hr
      simpa using h2

/-- C8 witness: in-range instances of the amended bounds — Fx55 with
`I = 0`, `x = 0` succeeds, and Dxyn with `I = 0x300`, `n = 1` succeeds. -/
theorem indexed_access_bounds_witness :
    isOkE (WriteMemory.Execute 0xF055 initMachine) = true ∧
    isOkE (Draw.Execute 0xD001 drawMachine) = true :=
  ⟨(indexed_access_bounds 0xF055 initMachine).1.mpr (fun k hk => by
      have hk0 : k = 0 := by omega
      subst hk0; decide),
   (indexed_access_bounds 0xD001 drawMachine).2.2.mpr (fun r hr => by
      have hr0 : r = 0 := by omega
      subst hr0; decide)⟩

/-- Addresses below the write window are untouched by `writeList`. -/
theorem writeList_lo : ∀ (L : List Nat) (mem : Nat → Nat) (base a : Nat), a < base →
    writeList mem base L a = mem a := by
  intro L
  induction L with
  | nil => intro mem base a h; rfl
  | cons b rest ih =>
    intro mem base a h
    show writeList (upd mem base (b % 256)) (base + 1) rest a = mem a
    rw [ih _ _ _ (by omega)]
    exact upd_ne _ _ _ _ (by omega)

/-- `writeList` writes byte `j` of the list at `base + j`. -/
theorem writeList_at : ∀ (L : List Nat) (mem : Nat → Nat) (base j : Nat), j < L.length →
    writeList mem base L (base + j) = L.getD j 0 % 256 := by
  intro L
  induction L with
  | nil => intro mem base j h; simp at h
  | cons b rest ih =>
    intro mem base j h
    match j with
    | 0 =>
      show writeList (upd mem base (b % 256)) (base + 1) rest (base + 0) = b % 256
      have e : base + 0 = base := by omega
      rw [e, writeList_lo rest _ _ _ (by omega)]
      exact upd_self _ _ _
    | j' + 1 =>
      show writeList (upd mem base (b % 256)) (base + 1) rest (base + (j' + 1)) =
        (b :: rest).getD (j' + 1) 0 % 256
      have e : base + (j' + 1) = (base + 1) + j' := by omega
      rw [e, ih _ _ _ (by simpa using Nat.lt_of_succ_lt_succ h)]
      simp

/-- `getD` inside the taken prefix agrees with the original list. -/
theorem getD_take : ∀ (L : List Nat) (n j : Nat), j < n →
    (L.take n).getD j 0 = L.getD j 0 := by
  intro L
  induction L with
  | nil => intro n j h; simp
  | cons b rest ih =>
    intro n j h
    match n, h with
    | n' + 1, h =>
      match j with
      | 0 => simp
      | j' + 1 =>
        simp only [List.take_succ_cons, List.getD_cons_succ]
        exact ih n' j' (by omega)

/-- The `LoadRom` loop when the remaining bytes fit: all of them are
copied and the loop returns normally. -/
theorem loadRomLoop_ok : ∀ (rom : List Nat) (k : Nat) (mem : Nat → Nat),
    512 + k + rom.length ≤ 4096 →
    loadRomLoop k rom mem = .ok (writeList mem (512 + k) rom) := by
  intro rom
  induction rom with
  | nil => intro k mem h; rfl
  | cons b rest ih =>
    intro k mem h
    simp only [loadRomLoop, ProgramLocation_eq, RamSize_eq]
    rw [if_pos (by simp at h; omega)]
    rw [ih (k + 1) _ (by simp at h ⊢; omega)]
    have e : 512 + (k + 1) = (512 + k) + 1 := by omega
    rw [e]
    rfl

/-- The `LoadRom` loop when the bytes overrun memory: the in-range prefix
is copied, then the write at address 4096 panics. -/
theorem loadRomLoop_err : ∀ (rom : List Nat) (k : Nat) (mem : Nat → Nat),
    k ≤ 3584 → 4096 < 512 + k + rom.length →
    loadRomLoop k rom mem = .error (writeList mem (512 + k) (rom.take (3584 - k))) := by
  intro rom
  induction rom with
  | nil => intro k mem hk h; simp at h; omega
  | cons b rest ih =>
    intro k mem hk h
    simp only [loadRomLoop, ProgramLocation_eq, RamSize_eq]
    by_cases hck : k < 3584
    · rw [if_pos (by omega)]
      rw [ih (k + 1) _ (by omega) (by simp at h ⊢; omega)]
      have e1 : 3584 - k = (3584 - (k + 1)) + 1 := by omega
      rw [e1, List.take_succ_cons]
      have e2 : 512 + (k + 1) = (512 + k) + 1 := by omega
      rw [e2]
      rfl
    · have hk4 : k = 3584 := by omega
      subst hk4
      rw [if_neg (by omega)]
      rw [show (3584 : Nat) - 3584 = 0 from rfl, List.take_zero]
      rfl

/-- C9 amended: `LoadRom` copies the ROM bytes into memory starting at
0x200 with no length validation and no ProgramTooLarge error: a ROM of at
most 4096 - 0x200 = 3584 bytes is copied in full, and a longer one
triggers an out-of-range write (runtime panic) on byte 3585 — after the
first 3584 bytes have already been written into memory, not before any
mutation. -/
theorem loadrom_copies_no_size_check (rom : List Nat) (mem : Nat → Nat) :
    (rom.length ≤ 3584 → LoadOkSpec rom mem) ∧
    (3584 < rom.length → LoadErrSpec rom mem) := by
  constructor
  · intro h
    have e := loadRomLoop_ok rom 0 mem (by omega)
    rw [show (512 : Nat) + 0 = 512 from rfl] at e
    refine ⟨?_, ?_⟩
    · rw [show RAM.LoadRom rom mem = loadRomLoop 0 rom mem from rfl, e]
      rfl
    · intro j hj
      rw [show RAM.LoadRom rom mem = loadRomLoop 0 rom mem from rfl, e]
      exact writeList_at rom mem 512 j hj
  · intro h
    have e := loadRomLoop_err rom 0 mem (by omega) (by omega)
    rw [show (512 : Nat) + 0 = 512 from rfl,
        show (3584 : Nat) - 0 = 3584 from rfl] at e
    have hlen : (rom.take 3584).length = 3584 := by
      rw [List.length_take]; omega
    refine ⟨?_, ?_⟩
    · rw [show RAM.LoadRom rom mem = loadRomLoop 0 rom mem from rfl, e]
      rfl
    · intro j hj
      rw [show RAM.LoadRom rom mem = loadRomLoop 0 rom mem from rfl, e]
      have h2 := writeList_at (rom.take 3584) mem 512 j (by omega)
      rw [show loadState (Except.error (writeList mem 512 (rom.take 3584))) =
            writeList mem 512 (rom.take 3584) from rfl]
      rw [show ProgramLocation + j = 512 + j from rfl, h2, getD_take rom 3584 j hj]

/-- C9 witness: a 3-byte ROM is copied in full starting at 0x200. -/
theorem loadrom_copies_no_size_check_witness : LoadOkSpec [1, 2, 3] zeroMem :=
  (loadrom_copies_no_size_check [1, 2, 3] zeroMem).1 (by decide)

/-- C9 counterexample: a 3585-byte ROM is not rejected before any
mutation — the load panics out of range, and at the panic the first ROM
byte (7) has already been written over the zero memory at 0x200. -/
theorem loadrom_mutates_then_overruns :
    isOkM (RAM.LoadRom (List.replicate 3585 7) zeroMem) = false ∧
    loadState (RAM.LoadRom (List.replicate 3585 7) zeroMem) 0x200 = 7 ∧
    zeroMem 0x200 = 0 := by
  have hlen : (List.replicate 3585 7).length = 3585 := List.length_replicate 3585 7
  have e := loadRomLoop_err (List.replicate 3585 7) 0 zeroMem (by decide)
    (by rw [hlen]; decide)
  rw [show (512 : Nat) + 0 = 512 from rfl,
      show (3584 : Nat) - 0 = 3584 from rfl] at e
  have hrom : RAM.LoadRom (List.replicate 3585 7) zeroMem =
      .error (writeList zeroMem 512 ((List.replicate 3585 7).take 3584)) := e
  refine ⟨?_, ?_, rfl⟩
  · rw [hrom]; rfl
  · rw [hrom]
    have hlen2 : ((List.replicate 3585 7).take 3584).length = 3584 := by
      rw [List.length_take, hlen]; decide
    have h2 := writeList_at ((List.replicate 3585 7).take 3584) zeroMem 512 0
      (by rw [hlen2]; decide)
    rw [show (512 : Nat) + 0 = 512 from rfl] at h2
    simp only [loadState]
    rw [show (0x200 : Nat) = 512 from rfl, h2, getD_take (List.replicate 3585 7) 3584 0 (by decide)]
    decide

/-- `processList` on an appended list is sequential processing. -/
theorem processList_append (s : Machine) (L1 L2 : List Nat) :
    processList s (L1 ++ L2) = processList (processList s L1) L2 := by
  simp [processList, List.foldl_append]

/-- `processList` leaves RAM alone. -/
theorem processList_ram : ∀ (L : List Nat) (s : Machine),
    (processList s L).ram = s.ram := by
  intro L
  induction L with
  | nil => intro s; rfl
  | cons t T ih =>
    intro s
    show (processList (drawPixel s t) T).ram = s.ram
    rw [ih, drawPixel_ram]

/-- `processList` leaves the program counter alone. -/
theorem processList_pc : ∀ (L : List Nat) (s : Machine),
    (processList s L).cpu.pc = s.cpu.pc := by
  intro L
  induction L with
  | nil => intro s; rfl
  | cons t T ih =>
    intro s
    show (processList (drawPixel s t) T).cpu.pc = s.cpu.pc
    rw [ih, drawPixel_pc]

/-- `processList` can touch only register 15. -/
theorem processList_v_ne : ∀ (L : List Nat) (s : Machine) (j : Nat), j ≠ 15 →
    (processList s L).cpu.v j = s.cpu.v j := by
  intro L
  induction L with
  | nil => intro s j _; rfl
  | cons t T ih =>
    intro s j h
    show (processList (drawPixel s t) T).cpu.v j = s.cpu.v j
    rw [ih _ _ h, drawPixel_v_ne _ _ _ h]

/-- Display after processing a duplicate-free list of target cells: each
listed cell is XOR-flipped once, the rest are untouched. -/
theorem processList_display : ∀ (L : List Nat), L.Nodup → ∀ (s : Machine) (j : Nat),
    (processList s L).display j =
      if j ∈ L then Nat.xor (s.display j) 1 else s.display j := by
  intro L
  induction L with
  | nil => intro _ s j; simp [processList]
  | cons t T ih =>
    intro hnd s j
    obtain ⟨hnt, hndT⟩ := List.nodup_cons.mp hnd
    show (processList (drawPixel s t) T).display j = _
    rw [ih hndT (drawPixel s t) j]
    by_cases hj : j ∈ T
    · rw [if_pos hj, if_pos (by simp [hj])]
      rw [drawPixel_display, if_neg (by rintro rfl; exact hnt hj)]
    · rw [if_neg hj]
      by_cases hjt : j = t
      · subst hjt
        rw [drawPixel_display, if_pos rfl, if_pos (by simp)]
      · rw [drawPixel_display, if_neg hjt, if_neg (by simp [hjt, hj])]

/-- VF after processing a duplicate-free list of target cells: 1 exactly
when some listed cell was set before processing, otherwise untouched. -/
theorem processList_v15 : ∀ (L : List Nat), L.Nodup → ∀ (s : Machine),
    (processList s L).cpu.v 15 =
      if ∃ j ∈ L, s.display j = 1 then 1 else s.cpu.v 15 := by
  intro L
  induction L with
  | nil => intro _ s; simp [processList]
  | cons t T ih =>
    intro hnd s
    obtain ⟨hnt, hndT⟩ := List.nodup_cons.mp hnd
    show (processList (drawPixel s t) T).cpu.v 15 = _
    rw [ih hndT (drawPixel s t)]
    have hcond : (∃ j ∈ T, (drawPixel s t).display j = 1) ↔ ∃ j ∈ T, s.display j = 1 := by
      refine exists_congr fun j => and_congr_right fun hj => ?_
      rw [drawPixel_display, if_neg (by rintro rfl; exact hnt hj)]
    by_cases hex : ∃ j ∈ T, s.display j = 1
    · rw [if_pos (hcond.mpr hex), if_pos (by obtain ⟨j, hj, hd⟩ := hex; exact ⟨j, by simp [hj], hd⟩)]
    · rw [if_neg (fun hc => hex (hcond.mp hc))]
      rw [drawPixel_v15]
      by_cases hd : s.display t = 1
      · rw [if_pos hd, if_pos ⟨t, by simp, hd⟩]
      · rw [if_neg hd, if_neg ?_]
        rintro ⟨j, hjm, hdj⟩
        rcases List.mem_cons.mp hjm with rfl | hjT
        · exact hd hdj
        · exact hex ⟨j, hjT, hdj⟩

/-- A `filterMap` whose function is an if-guarded `some` is a filter
followed by a map. -/
theorem filterMap_ite_eq (P : Nat → Prop) [DecidablePred P] (g : Nat → Nat) :
    ∀ L : List Nat,
      (L.filterMap fun c => if P c then some (g c) else none) =
        (L.filter fun c => decide (P c)).map g := by
  intro L
  induction L with
  | nil => rfl
  | cons c L ih =>
    by_cases h : P c <;> simp [List.filterMap_cons, List.filter_cons, h, ih]

/-- `rowTargets` as a map over the set bit positions of the sprite byte. -/
theorem rowTargets_eq (x y yline p : Nat) :
    rowTargets x y yline p =
      ((List.range 8).filter fun c =>
          decide (Nat.land p (Nat.shiftRight 0x80 c) ≠ 0)).map
        (fun c => (x + c) % 64 + ((y + yline) % 32) * 64) := by
  simp only [rowTargets, DisplayWidth_eq, DisplayHeight_eq]
  exact filterMap_ite_eq _ _ _

/-- Cell membership in one sprite row's targets. -/
theorem rowTargets_mem (x y yline p j : Nat) :
    j ∈ rowTargets x y yline p ↔
      ∃ c, c < 8 ∧ Nat.land p (Nat.shiftRight 0x80 c) ≠ 0 ∧
        j = (x + c) % 64 + ((y + yline) % 32) * 64 := by
  rw [rowTargets_eq]
  simp only [List.mem_map, List.mem_filter, List.mem_range, decide_eq_true_eq]
  constructor
  · rintro ⟨c, ⟨hc8, hl⟩, rfl⟩
    exact ⟨c, hc8, hl, rfl⟩
  · rintro ⟨c, hc8, hl, rfl⟩
    exact ⟨c, ⟨hc8, hl⟩, rfl⟩

/-- Within one sprite row the eight wrapped target cells are distinct. -/
theorem rowTargets_nodup (x y yline p : Nat) : (rowTargets x y yline p).Nodup := by
  rw [rowTargets_eq]
  apply List.Nodup.map_on
  · intro a ha b hb hg
    have ha8 : a < 8 := List.mem_range.mp (List.mem_filter.mp ha).1
    have hb8 : b < 8 := List.mem_range.mp (List.mem_filter.mp hb).1
    omega
  · exact (List.nodup_range 8).filter _

/-- Cell membership in the whole draw's targets. -/
theorem drawTargets_mem (mem : Nat → Nat) (i x y : Nat) : ∀ (rem yline j : Nat),
    j ∈ drawTargets mem i x y yline rem ↔
      ∃ r, r < rem ∧ j ∈ rowTargets x y (yline + r) (mem ((i + (yline + r)) % 65536)) := by
  intro rem
  induction rem with
  | zero => intro yline j; simp [drawTargets]
  | succ rem ih =>
    intro yline j
    show j ∈ rowTargets x y yline (mem ((i + yline) % 65536)) ++
        drawTargets mem i x y (yline + 1) rem ↔ _
    rw [List.mem_append, ih (yline + 1) j]
    constructor
    · rintro (hrow | ⟨r, hr, hmem⟩)
      · exact ⟨0, by omega, by simpa using hrow⟩
      · refine ⟨r + 1, by omega, ?_⟩
        have e : yline + (r + 1) = yline + 1 + r := by omega
        rw [e]; exact hmem
    · rintro ⟨r, hr, hmem⟩
      match r with
      | 0 => exact Or.inl (by simpa using hmem)
      | r' + 1 =>
        refine Or.inr ⟨r', by omega, ?_⟩
        have e : yline + 1 + r' = yline + (r' + 1) := by omega
        rw [e]; exact hmem

/-- All target cells of a draw of at most 32 rows are distinct: rows land
on distinct wrapped display rows, and columns are distinct within a row. -/
theorem drawTargets_nodup (mem : Nat → Nat) (i x y : Nat) : ∀ (rem yline : Nat),
    yline + rem ≤ 32 → (drawTargets mem i x y yline rem).Nodup := by
  intro rem
  induction rem with
  | zero => intro yline _; simp [drawTargets]
  | succ rem ih =>
    intro yline hle
    show (rowTargets x y yline (mem ((i + yline) % 65536)) ++
        drawTargets mem i x y (yline + 1) rem).Nodup
    rw [List.nodup_append]
    refine ⟨rowTargets_nodup _ _ _ _, ih (yline + 1) (by omega), ?_⟩
    intro j hj hj'
    rw [rowTargets_mem] at hj
    rw [drawTargets_mem] at hj'
    obtain ⟨c, hc8, _, rfl⟩ := hj
    obtain ⟨r, hr, hmem⟩ := hj'
    rw [rowTargets_mem] at hmem
    obtain ⟨c', hc8', _, heq⟩ := hmem
    omega

/-- The inner draw loop is the flattened per-cell processing of one row. -/
theorem drawRowBits_eq : ∀ (L : List Nat) (s : Machine) (x y yline pixel : Nat),
    L.foldl (drawBit x y yline pixel) s =
      processList s (L.filterMap fun c =>
        if Nat.land pixel (Nat.shiftRight 0x80 c) ≠ 0 then
          some ((x + c) % DisplayWidth + ((y + yline) % DisplayHeight) * 64)
        else none) := by
  intro L
  induction L with
  | nil => intro s x y yline pixel; rfl
  | cons c L ih =>
    intro s x y yline pixel
    rw [List.foldl_cons, List.filterMap_cons]
    by_cases h : Nat.land pixel (Nat.shiftRight 0x80 c) ≠ 0
    · rw [if_pos h]
      show L.foldl (drawBit x y yline pixel) (drawBit x y yline pixel s c) = _
      rw [show drawBit x y yline pixel s c =
            drawPixel s ((x + c) % DisplayWidth + ((y + yline) % DisplayHeight) * 64) by
          unfold drawBit; rw [if_pos h]]
      exact ih _ x y yline pixel
    · rw [if_neg h]
      show L.foldl (drawBit x y yline pixel) (drawBit x y yline pixel s c) = _
      rw [show drawBit x y yline pixel s c = s by unfold drawBit; rw [if_neg h]]
      exact ih _ x y yline pixel

/-- One sprite row's loop equals processing its target cells. -/
theorem drawRowBits_processList (s : Machine) (x y yline pixel : Nat) :
    drawRowBits s x y yline pixel = processList s (rowTargets x y yline pixel) := by
  rw [show drawRowBits s x y yline pixel =
      (List.range 8).foldl (drawBit x y yline pixel) s from rfl]
  rw [drawRowBits_eq]
  rfl

/-- A draw whose sprite reads are all in range equals processing the
flattened target list. -/
theorem drawRows_eq (x y : Nat) : ∀ (rem yline : Nat) (s : Machine),
    (∀ r, r < rem → (s.cpu.i + (yline + r)) % 65536 < 4096) →
    drawRows x y yline rem s =
      .ok (processList s (drawTargets s.ram s.cpu.i x y yline rem)) := by
  intro rem
  induction rem with
  | zero => intro yline s _; rfl
  | succ rem ih =>
    intro yline s h
    have hr : (s.cpu.i + yline) % 65536 < 4096 := by
      have h0 := h 0 (Nat.succ_pos rem)
      simpa using h0
    rw [drawRows_succ_in x y yline rem s hr]
    rw [ih (yline + 1) _ ?hres]
    case hres =>
      intro r hrr
      rw [drawRowBits_cpu_i]
      have h2 := h (r + 1) (by omega)
      have e : s.cpu.i + (yline + 1 + r) = s.cpu.i + (yline + (r + 1)) := by omega
      rw [e]; exact h2
    rw [drawRowBits_ram, drawRowBits_cpu_i, drawRowBits_processList]
    rw [← processList_append]
    rfl

/-- A display cell is hit by the draw exactly when the spec's per-bit
description (`drawHitSpec`) says a set sprite bit wraps onto it. -/
theorem hit_bridge (s : Machine) (x y n cx cy : Nat) (hcx : cx < 64) (_hcy : cy < 32) :
    ((cx + cy * 64) ∈ drawTargets s.ram s.cpu.i x y 0 n) ↔
      drawHitSpec s x y n cx cy = true := by
  rw [drawTargets_mem]
  simp only [drawHitSpec, List.any_eq_true, List.mem_range, rowTargets_mem,
    Bool.and_eq_true, bne_iff_ne, beq_iff_eq, Nat.zero_add]
  constructor
  · rintro ⟨r, hr, c, hc8, hl, heq⟩
    have hx64 : (x + c) % 64 < 64 := Nat.mod_lt _ (by omega)
    have hy32 : (y + r) % 32 < 32 := Nat.mod_lt _ (by omega)
    exact ⟨r, hr, c, hc8, ⟨hl, by omega⟩, by omega⟩
  · rintro ⟨r, hr, c, hc8, ⟨hl, hcx'⟩, hcy'⟩
    exact ⟨r, hr, c, hc8, hl, by omega⟩

/-- Some draw target is an already-set cell exactly when the spec's
collision description (`drawCollideSpec`) holds. -/
theorem collide_bridge (s : Machine) (x y n : Nat) :
    (∃ j ∈ drawTargets s.ram s.cpu.i x y 0 n, s.display j = 1) ↔
      drawCollideSpec s x y n = true := by
  simp only [drawCollideSpec, List.any_eq_true, List.mem_range, drawTargets_mem,
    rowTargets_mem, Bool.and_eq_true, bne_iff_ne, beq_iff_eq, Nat.zero_add]
  constructor
  · rintro ⟨j, ⟨r, hr, c, hc8, hl, rfl⟩, hdisp⟩
    exact ⟨r, hr, c, hc8, hl, hdisp⟩
  · rintro ⟨r, hr, c, hc8, hl, hdisp⟩
    exact ⟨(x + c) % 64 + ((y + r) % 32) * 64, ⟨r, hr, c, hc8, hl, rfl⟩, hdisp⟩

/-- C4: Dxyn (with all sprite reads in range) XORs each set sprite bit
into the cell at ((Vx + column) mod 64, (Vy + row) mod 32) — always
wrapping, never clipping — VF is reset before drawing and ends 1 exactly
when some set bit lands on a previously-set cell, and registers V0..VE,
PC and RAM are untouched.  In particular a sprite drawn at x = 60 with
width 8 wraps onto columns 60..63 and 0..3. -/
theorem draw_wrap_xor_collision (val : Nat) (s : Machine)
    (hmem : s.cpu.i + val % 16 ≤ 4096) : DrawClaim val s := by
  have hreads : ∀ r, r < val % 16 →
      ((setV s 15 0).cpu.i + (0 + r)) % 65536 < 4096 := by
    intro r hr
    show (s.cpu.i + (0 + r)) % 65536 < 4096
    have e : s.cpu.i + (0 + r) = s.cpu.i + r := by omega
    rw [e, Nat.mod_eq_of_lt (by omega)]
    omega
  have hde : Draw.Execute val s =
      .ok (processList (setV s 15 0)
        (drawTargets s.ram s.cpu.i (s.cpu.v ((val / 256) % 16))
          (s.cpu.v ((val / 16) % 16)) 0 (val % 16))) := by
    rw [show Draw.Execute val s =
        drawRows (s.cpu.v ((val / 256) % 16)) (s.cpu.v ((val / 16) % 16)) 0
          (val % 16) (setV s 15 0) from rfl]
    exact drawRows_eq _ _ (val % 16) 0 (setV s 15 0) hreads
  have hnd : (drawTargets s.ram s.cpu.i (s.cpu.v ((val / 256) % 16))
      (s.cpu.v ((val / 16) % 16)) 0 (val % 16)).Nodup :=
    drawTargets_nodup _ _ _ _ (val % 16) 0 (by omega)
  refine ⟨?_, ?_, ?_, ?_, ?_, ?_⟩
  · rw [hde]; rfl
  · intro cx cy hcx hcy
    rw [hde]
    show (processList (setV s 15 0) _).display (cx + cy * 64) = _
    rw [processList_display _ hnd]
    rw [show (setV s 15 0).display = s.display from rfl]
    by_cases hh : drawHitSpec s (s.cpu.v ((val / 256) % 16))
        (s.cpu.v ((val / 16) % 16)) (val % 16) cx cy = true
    · rw [if_pos ((hit_bridge s _ _ _ cx cy hcx hcy).mpr hh), if_pos hh]
    · rw [if_neg (fun hm => hh ((hit_bridge s _ _ _ cx cy hcx hcy).mp hm)), if_neg hh]
  · rw [hde]
    show (processList (setV s 15 0) _).cpu.v 15 = _
    rw [processList_v15 _ hnd]
    rw [show (setV s 15 0).cpu.v 15 = 0 by simp [setV, upd]]
    have hdisp : ∀ j, (setV s 15 0).display j = s.display j := fun _ => rfl
    by_cases hc : drawCollideSpec s (s.cpu.v ((val / 256) % 16))
        (s.cpu.v ((val / 16) % 16)) (val % 16) = true
    · rw [if_pos ?pos, if_pos hc]
      case pos =>
        obtain ⟨j, hjm, hdj⟩ := (collide_bridge s _ _ _).mpr hc
        exact ⟨j, hjm, hdj⟩
    · rw [if_neg ?neg, if_neg hc]
      case neg =>
        rintro ⟨j, hjm, hdj⟩
        exact hc ((collide_bridge s _ _ _).mp ⟨j, hjm, hdj⟩)
  · intro j hj
    rw [hde]
    show (processList (setV s 15 0) _).cpu.v j = s.cpu.v j
    rw [processList_v_ne _ _ _ (by omega)]
    exact upd_ne _ _ _ _ (by omega)
  · rw [hde]
    show (processList (setV s 15 0) _).cpu.pc = s.cpu.pc
    rw [processList_pc]
    rfl
  · rw [hde]
    show (processList (setV s 15 0) _).ram = s.ram
    rw [processList_ram]
    rfl

/-- C4 witness: the draw contract at the wrap-around instance — a one-row
0xFF sprite at x = 60 (opcode D011 with V0 = 60, V1 = 0, I = 0x300). -/
theorem draw_wrap_xor_collision_witness :
    drawMachine.cpu.i + 0xD011 % 16 ≤ 4096 ∧ DrawClaim 0xD011 drawMachine :=
  ⟨by decide, draw_wrap_xor_collision 0xD011 drawMachine (by decide)⟩

/-- C10: when the two bytes fetched at PC are both zero, the cycle
returns the halt signal with the machine completely untouched (the nil
return in `ReadInstruction` happens before the PC advance), and the run
loop iteration halts the same way, so repeated invocations stay at the
same PC. -/
theorem zero_word_halts_unchanged (rnd : Nat) (s : Machine)
    (h1 : s.cpu.pc < RamSize) (h2 : (s.cpu.pc + 1) % 65536 < RamSize)
    (hz1 : s.ram s.cpu.pc = 0) (hz2 : s.ram ((s.cpu.pc + 1) % 65536) = 0) :
    step rnd s = .halt s ∧ runIter rnd s = .halt s := by
  have hs : step rnd s = .halt s := by
    unfold step ramRead
    rw [if_pos h1, if_pos h2, hz1, hz2]
    rfl
  exact ⟨hs, by simp [runIter, hs]⟩

/-- C10 witness: the zero-fetch halt at the fresh machine (all memory
zero, PC = 0x200). -/
theorem zero_word_halts_unchanged_witness :
    initMachine.cpu.pc < RamSize ∧
    (initMachine.cpu.pc + 1) % 65536 < RamSize ∧
    initMachine.ram initMachine.cpu.pc = 0 ∧
    initMachine.ram ((initMachine.cpu.pc + 1) % 65536) = 0 ∧
    (step 0 initMachine = .halt initMachine ∧
     runIter 0 initMachine = .halt initMachine) :=
  ⟨by decide, by decide, by decide, by decide,
   zero_word_halts_unchanged 0 initMachine (by decide) (by decide) (by decide) (by decide)⟩

end Chip8
